import Mathlib

/-!
Verification development for the bouncing-rings simulation (`src/main.rs`).

Shallow embedding choices:
* `f32` values are modelled as rationals (`ℚ`); every numeric value that the
  claims exercise (0.5 steps from integer starting points) is exactly
  representable in `f32`, so rational arithmetic matches the source on the
  inputs of interest. Rust `bool`-returning predicates become decidable
  `Prop`s.
* `Point::distance_to` computes a square root, so the verbatim translation
  `Ring.is_intersectingR` lives over `ℝ` with `Real.sqrt`. The working
  version `Ring.is_intersecting` replaces each comparison `sqrt s < b` /
  `sqrt s > a` by its algebraic characterisation over `ℚ` (`sqrtLt`,
  `sqrtGt`); `Ring.is_intersecting_iff` proves the two versions agree,
  so the working version is a faithful image of the source predicate.
* The randomized color draw in `Ring::default` and the mouse state read in
  the top-level `update` come from the environment; they are passed in as
  explicit arguments (a color triple, a button position), which models the
  ambient RNG and windowing layer without touching the core logic.
-/

namespace BouncingRings

/-- 2D point with rational coordinates (source: `struct Point { x: f32, y: f32 }`). -/
structure Point where
  x : ℚ
  y : ℚ
deriving DecidableEq

/-- Source: `Point::new`. -/
def Point.new (x y : ℚ) : Point := ⟨x, y⟩

/-- Squared Euclidean distance, the radicand in `Point::distance_to`. -/
def Point.distSq (p other : Point) : ℚ :=
  (p.x - other.x) * (p.x - other.x) + (p.y - other.y) * (p.y - other.y)

/-- Source: `Point::distance_to` — `(dx*dx + dy*dy).sqrt()`. -/
noncomputable def Point.distance_to (p other : Point) : ℝ :=
  Real.sqrt (((p.x : ℝ) - (other.x : ℝ)) * ((p.x : ℝ) - (other.x : ℝ)) +
    ((p.y : ℝ) - (other.y : ℝ)) * ((p.y : ℝ) - (other.y : ℝ)))

/-- Source: `enum RingDirection { Growing, Shrinking }`. -/
inductive RingDirection where
  | Growing
  | Shrinking
deriving DecidableEq

/-- Source: `struct Ring`. The color is an RGB triple of bytes; its numeric
type is irrelevant to the dynamics, so it is modelled as `ℕ × ℕ × ℕ`. -/
structure Ring where
  color : ℕ × ℕ × ℕ
  origin : Point
  radius : ℚ
  weight : ℚ
  growth_rate : ℚ
  direction : RingDirection

/-- Source: `impl PartialEq for Ring` — field equality on origin, radius,
weight, growth_rate and direction; color is not compared. -/
def Ring.ringEq (a other : Ring) : Prop :=
  a.origin = other.origin ∧ a.radius = other.radius ∧ a.weight = other.weight ∧
    a.growth_rate = other.growth_rate ∧ a.direction = other.direction

instance Ring.ringEqDecidable (a other : Ring) : Decidable (a.ringEq other) := by
  unfold Ring.ringEq
  infer_instance

/-- Verbatim translation of `Ring::is_intersecting` over `ℝ` (the `println!`
diagnostic has no effect on the returned value and is dropped). -/
def Ring.is_intersectingR (self other : Ring) : Prop :=
  if self.ringEq other then False
  else if self.direction = RingDirection.Shrinking ∧ other.direction = RingDirection.Shrinking then
    False
  else
    let distance := self.origin.distance_to other.origin
    let r1 : ℝ := (self.radius : ℝ)
    let r2 : ℝ := (other.radius : ℝ)
    let g : ℝ := (self.growth_rate : ℝ)
    (distance > r1 + r2 - g ∧ distance < r1 + r2 + g) ∨
      (distance > |r1 - r2| - g ∧ distance < |r1 - r2| + g)

/-- `sqrtGt s a` holds iff `Real.sqrt s > a`: `a < 0` or `a * a < s`. -/
def sqrtGt (s a : ℚ) : Prop :=
  a < 0 ∨ a * a < s

/-- `sqrtLt s b` holds iff `Real.sqrt s < b`: `0 < b` and `s < b * b`. -/
def sqrtLt (s b : ℚ) : Prop :=
  0 < b ∧ s < b * b

instance sqrtGtDecidable (s a : ℚ) : Decidable (sqrtGt s a) := by
  unfold sqrtGt
  infer_instance

instance sqrtLtDecidable (s b : ℚ) : Decidable (sqrtLt s b) := by
  unfold sqrtLt
  infer_instance

/-- Working version of `Ring::is_intersecting`: each comparison against the
square root is replaced by its `ℚ`-decidable characterisation
(`sqrtGt` / `sqrtLt`); `Ring.is_intersecting_iff` below proves agreement
with the verbatim `Ring.is_intersectingR`. -/
def Ring.is_intersecting (self other : Ring) : Prop :=
  if self.ringEq other then False
  else if self.direction = RingDirection.Shrinking ∧ other.direction = RingDirection.Shrinking then
    False
  else
    let s := self.origin.distSq other.origin
    let r1 := self.radius
    let r2 := other.radius
    let g := self.growth_rate
    (sqrtGt s (r1 + r2 - g) ∧ sqrtLt s (r1 + r2 + g)) ∨
      (sqrtGt s (|r1 - r2| - g) ∧ sqrtLt s (|r1 - r2| + g))

instance Ring.is_intersectingDecidable (a b : Ring) : Decidable (a.is_intersecting b) := by
  unfold Ring.is_intersecting
  infer_instance

/-- Source: the direction flip inside `Ring::update` (`Growing→Shrinking`,
`Shrinking→Growing`). -/
def RingDirection.flip : RingDirection → RingDirection
  | RingDirection.Growing => RingDirection.Shrinking
  | RingDirection.Shrinking => RingDirection.Growing

/-- Source: `Ring::update(&mut self, rings: &Vec<Ring>)`. The three mutation
stages of the body are sequenced with `let`-shadowing: (a) the intersection
scan with early break (existence of an intersecting partner in the snapshot)
and the conditional flip, (b) the radius delta by direction, (c) the
negative-radius check. -/
def Ring.update (self : Ring) (rings : List Ring) : Ring :=
  let intersecting := ∃ other ∈ rings, self.is_intersecting other
  let self1 :=
    if intersecting then { self with direction := self.direction.flip } else self
  let self2 :=
    match self1.direction with
    | RingDirection.Growing => { self1 with radius := self1.radius + self1.growth_rate }
    | RingDirection.Shrinking => { self1 with radius := self1.radius - self1.growth_rate }
  if self2.radius < 0 ∧ self2.direction = RingDirection.Shrinking then
    { self2 with direction := RingDirection.Growing }
  else self2

/-- Spec step "intersection flip": if the ring intersects some ring of the
snapshot, flip its direction. -/
def tickIntersectFlip (r : Ring) (rings : List Ring) : Ring :=
  if ∃ other ∈ rings, r.is_intersecting other then
    { r with direction := r.direction.flip }
  else r

/-- Spec step "radius delta": Growing adds `growth_rate`, Shrinking subtracts it. -/
def tickRadiusDelta (r : Ring) : Ring :=
  match r.direction with
  | RingDirection.Growing => { r with radius := r.radius + r.growth_rate }
  | RingDirection.Shrinking => { r with radius := r.radius - r.growth_rate }

/-- Spec step "zero-bounce": if the radius is negative while Shrinking, set
the direction back to Growing (the radius is not clamped). -/
def tickZeroBounce (r : Ring) : Ring :=
  if r.radius < 0 ∧ r.direction = RingDirection.Shrinking then
    { r with direction := RingDirection.Growing }
  else r

/-- Source: `Ring::set_origin`. -/
def Ring.set_origin (r : Ring) (x y : ℚ) : Ring :=
  { r with origin := Point.new x y }

/-- Source: `Ring::new`, i.e. `Ring::default`. The random color draw from
`thread_rng` is modelled by passing the drawn triple explicitly. -/
def Ring.new (color : ℕ × ℕ × ℕ) : Ring :=
  { color := color
    origin := { x := 0, y := 0 }
    radius := 0
    weight := 3
    growth_rate := 1 / 2
    direction := RingDirection.Growing }

/-- Source: the loop body of `impl Nannou for Vec<Ring>::update` — each ring
of the vector is updated in place against the fixed `clone`. -/
def updateLoop (clone : List Ring) : List Ring → List Ring
  | [] => []
  | r :: rest => r.update clone :: updateLoop clone rest

/-- Source: `impl Nannou for Vec<Ring>::update` — `let clone = self.clone();`
then the in-place loop reading only `clone`. -/
def ringsUpdate (rings : List Ring) : List Ring :=
  updateLoop rings rings

/-- `n` simulation ticks (`n` calls of `Vec<Ring>::update`). -/
def stepN : ℕ → List Ring → List Ring
  | 0, l => l
  | n + 1, l => stepN n (ringsUpdate l)

/-- Trajectory of a single ring updated against the snapshot sequence `S`:
`trajOn S r k` is the ring after `k` ticks, where tick `k` reads snapshot `S k`. -/
def trajOn (S : ℕ → List Ring) (r : Ring) : ℕ → Ring
  | 0 => r
  | k + 1 => (trajOn S r k).update (S k)

/-- Source: `nannou::state::mouse::ButtonPosition` restricted to what the
program reads (up, or down at a position). -/
inductive ButtonPosition where
  | Up
  | Down (pos : Point)
deriving DecidableEq

/-- Source: `struct Model` (the rendering-only fields `bg_color` and
`current_bg` carry no dynamics and are omitted; `rings` and `button_state`
are the state the update function reads and writes). -/
structure Model where
  rings : List Ring
  button_state : ButtonPosition

/-- Source: the top-level `update(_app, model, _update)` function. The mouse
state `_app.mouse.buttons.left()` and the color drawn by `Ring::new` are
environment inputs, passed as the `left_button` and `color` arguments. -/
def appUpdate (model : Model) (left_button : ButtonPosition) (color : ℕ × ℕ × ℕ) : Model :=
  let model1 :=
    if model.button_state ≠ left_button then
      match left_button with
      | ButtonPosition.Up => { model with button_state := left_button }
      | ButtonPosition.Down pos =>
        { model with
          rings := model.rings ++ [(Ring.new color).set_origin pos.x pos.y]
          button_state := left_button }
    else model
  { model1 with rings := ringsUpdate model1.rings }

/-- First ring of the two-ring scenario: spawned at `(0, 0)` with defaults. -/
def ringA : Ring := (Ring.new (0, 0, 200)).set_origin 0 0

/-- Second ring of the two-ring scenario: spawned at `(10, 0)` with defaults. -/
def ringB : Ring := (Ring.new (0, 0, 200)).set_origin 10 0

/-!  Theorems. -/

theorem Point.distance_to_eq_sqrt_distSq (p other : Point) :
    p.distance_to other = Real.sqrt ((p.distSq other : ℚ) : ℝ) := by
  unfold Point.distance_to Point.distSq
  push_cast
  ring_nf

theorem Point.distSq_nonneg (p other : Point) : 0 ≤ p.distSq other :=
  add_nonneg (mul_self_nonneg _) (mul_self_nonneg _)

theorem sqrtGt_iff (s a : ℚ) : sqrtGt s a ↔ (a : ℝ) < Real.sqrt (s : ℝ) := by
  unfold sqrtGt
  rcases lt_or_le a 0 with ha | ha
  · refine iff_of_true (Or.inl ha) ?_
    calc (a : ℝ) < 0 := by exact_mod_cast ha
    _ ≤ Real.sqrt (s : ℝ) := Real.sqrt_nonneg _
  · have ha' : (0 : ℝ) ≤ (a : ℝ) := by exact_mod_cast ha
    rw [Real.lt_sqrt ha']
    constructor
    · rintro (h | h)
      · exact absurd h (not_lt.mpr ha)
      · have : ((a * a : ℚ) : ℝ) < (s : ℝ) := by exact_mod_cast h
        calc (a : ℝ) ^ 2 = ((a * a : ℚ) : ℝ) := by push_cast; ring
        _ < (s : ℝ) := this
    · intro h
      right
      have : ((a * a : ℚ) : ℝ) < (s : ℝ) := by
        calc ((a * a : ℚ) : ℝ) = (a : ℝ) ^ 2 := by push_cast; ring
        _ < (s : ℝ) := h
      exact_mod_cast this

theorem sqrtLt_iff (s b : ℚ) : sqrtLt s b ↔ Real.sqrt (s : ℝ) < (b : ℝ) := by
  unfold sqrtLt
  rcases lt_or_le 0 b with hb | hb
  · have hb' : (0 : ℝ) < (b : ℝ) := by exact_mod_cast hb
    rw [Real.sqrt_lt' hb']
    constructor
    · rintro ⟨-, h⟩
      have : ((s : ℚ) : ℝ) < ((b * b : ℚ) : ℝ) := by exact_mod_cast h
      calc (s : ℝ) < ((b * b : ℚ) : ℝ) := this
      _ = (b : ℝ) ^ 2 := by push_cast; ring
    · intro h
      refine ⟨hb, ?_⟩
      have : ((s : ℚ) : ℝ) < ((b * b : ℚ) : ℝ) := by
        calc ((s : ℚ) : ℝ) < (b : ℝ) ^ 2 := h
        _ = ((b * b : ℚ) : ℝ) := by push_cast; ring
      exact_mod_cast this
  · have hb' : (b : ℝ) ≤ 0 := by exact_mod_cast hb
    refine iff_of_false (fun h => absurd h.1 (not_lt.mpr hb)) (fun h => ?_)
    exact absurd (lt_of_le_of_lt (Real.sqrt_nonneg _) h) (not_lt.mpr hb')

theorem Ring.is_intersecting_iff (a b : Ring) :
    a.is_intersecting b ↔ a.is_intersectingR b := by
  unfold Ring.is_intersecting Ring.is_intersectingR
  by_cases h1 : a.ringEq b
  · simp [h1]
  · by_cases h2 : a.direction = RingDirection.Shrinking ∧ b.direction = RingDirection.Shrinking
    · simp [h1, h2]
    · simp only [h1, h2, if_false]
      rw [Point.distance_to_eq_sqrt_distSq]
      simp only [sqrtGt_iff, sqrtLt_iff, gt_iff_lt]
      push_cast
      tauto

theorem Ring.ringEq_refl (r : Ring) : r.ringEq r :=
  ⟨rfl, rfl, rfl, rfl, rfl⟩

theorem Ring.not_is_intersecting_self (r : Ring) : ¬ r.is_intersecting r := by
  unfold Ring.is_intersecting
  simp [Ring.ringEq_refl r]

theorem update_eq_stages (r : Ring) (rings : List Ring) :
    r.update rings = tickZeroBounce (tickRadiusDelta (tickIntersectFlip r rings)) := rfl

theorem updateLoop_eq_map (clone : List Ring) (l : List Ring) :
    updateLoop clone l = List.map (fun r => r.update clone) l := by
  induction l with
  | nil => rfl
  | cons r rest ih => simp [updateLoop, ih]

theorem ringsUpdate_eq_map (rings : List Ring) :
    ringsUpdate rings = List.map (fun r => r.update rings) rings :=
  updateLoop_eq_map rings rings

theorem ringsUpdate_length (l : List Ring) : (ringsUpdate l).length = l.length := by
  rw [ringsUpdate_eq_map, List.length_map]

theorem stepN_succ (n : ℕ) (l : List Ring) :
    stepN (n + 1) l = ringsUpdate (stepN n l) := by
  induction n generalizing l with
  | zero => rfl
  | succ m ih => exact ih (ringsUpdate l)

theorem stepN_length (n : ℕ) (l : List Ring) : (stepN n l).length = l.length := by
  induction n generalizing l with
  | zero => rfl
  | succ m ih => rw [stepN, ih, ringsUpdate_length]

theorem not_is_intersecting_of_ringEq {a b : Ring} (h : a.ringEq b) :
    ¬ a.is_intersecting b := by
  unfold Ring.is_intersecting
  simp [h]

theorem not_is_intersectingR_of_ringEq {a b : Ring} (h : a.ringEq b) :
    ¬ a.is_intersectingR b := by
  unfold Ring.is_intersectingR
  simp [h]

/-- C2: during a tick, each ring's update is exactly the composition of the
intersection flip, then the radius delta, then the zero-bounce correction,
in this order. -/
theorem update_is_flip_then_delta_then_bounce (r : Ring) (rings : List Ring) :
    r.update rings = tickZeroBounce (tickRadiusDelta (tickIntersectFlip r rings)) :=
  update_eq_stages r rings

/-- C3: the collection update clones the pre-tick state and updates every
ring against that frozen snapshot only, so it equals mapping the pure
per-ring transition over the pre-tick collection. -/
theorem step_reads_only_pretick_snapshot :
    (∀ clone l : List Ring, updateLoop clone l = List.map (fun r => r.update clone) l) ∧
    ∀ rings : List Ring, ringsUpdate rings = List.map (fun r => r.update rings) rings :=
  ⟨updateLoop_eq_map, ringsUpdate_eq_map⟩

/-- C5: two rings that are both Shrinking never intersect, whatever their
radii and origins. -/
theorem shrinking_pair_never_intersects (R O : Ring)
    (hR : R.direction = RingDirection.Shrinking)
    (hO : O.direction = RingDirection.Shrinking) :
    ¬ R.is_intersecting O ∧ ¬ R.is_intersectingR O := by
  unfold Ring.is_intersecting Ring.is_intersectingR
  constructor <;> by_cases h1 : R.ringEq O <;> simp [h1, hR, hO]

/-- Witness for C5 at two concrete shrinking rings with distinct origins. -/
theorem shrinking_pair_never_intersects_witness :
    ({ Ring.new (0, 0, 200) with direction := RingDirection.Shrinking } : Ring).direction =
        RingDirection.Shrinking ∧
    ({ (Ring.new (0, 0, 200)).set_origin 4 3 with
        direction := RingDirection.Shrinking } : Ring).direction = RingDirection.Shrinking ∧
    (¬ ({ Ring.new (0, 0, 200) with direction := RingDirection.Shrinking } : Ring).is_intersecting
        { (Ring.new (0, 0, 200)).set_origin 4 3 with direction := RingDirection.Shrinking } ∧
      ¬ ({ Ring.new (0, 0, 200) with
          direction := RingDirection.Shrinking } : Ring).is_intersectingR
        { (Ring.new (0, 0, 200)).set_origin 4 3 with direction := RingDirection.Shrinking }) :=
  ⟨rfl, rfl, shrinking_pair_never_intersects _ _ rfl rfl⟩

/-- C6: ring equality holds iff origin, radius, weight, growth_rate and
direction all match (color is ignored); whenever two rings are equal under
this relation — colors may differ — they do not intersect; in particular a
ring never intersects itself, whatever its fields. -/
theorem ring_equality_ignores_color_and_self_exclusion (R O : Ring) (c : ℕ × ℕ × ℕ) :
    (R.ringEq O ↔ (R.origin = O.origin ∧ R.radius = O.radius ∧ R.weight = O.weight ∧
      R.growth_rate = O.growth_rate ∧ R.direction = O.direction)) ∧
    ({ R with color := c } : Ring).ringEq R ∧
    (R.ringEq O → ¬ R.is_intersecting O ∧ ¬ R.is_intersectingR O) ∧
    ¬ R.is_intersecting R ∧ ¬ R.is_intersectingR R :=
  ⟨Iff.rfl, ⟨rfl, rfl, rfl, rfl, rfl⟩,
    fun h => ⟨not_is_intersecting_of_ringEq h, not_is_intersectingR_of_ringEq h⟩,
    not_is_intersecting_of_ringEq (Ring.ringEq_refl R),
    not_is_intersectingR_of_ringEq (Ring.ringEq_refl R)⟩

/-- Witness for C6 at two concrete rings that differ only in color. -/
theorem ring_equality_ignores_color_and_self_exclusion_witness :
    (Ring.new (1, 1, 1)).ringEq (Ring.new (9, 9, 9)) ∧
    ¬ (Ring.new (1, 1, 1)).is_intersecting (Ring.new (9, 9, 9)) ∧
    ¬ (Ring.new (1, 1, 1)).is_intersectingR (Ring.new (9, 9, 9)) :=
  ⟨⟨rfl, rfl, rfl, rfl, rfl⟩,
    (ring_equality_ignores_color_and_self_exclusion (Ring.new (1, 1, 1))
        (Ring.new (9, 9, 9)) (0, 0, 0)).2.2.1 ⟨rfl, rfl, rfl, rfl, rfl⟩⟩


theorem update_preserves_static (r : Ring) (rings : List Ring) :
    (r.update rings).color = r.color ∧ (r.update rings).origin = r.origin ∧
    (r.update rings).weight = r.weight ∧ (r.update rings).growth_rate = r.growth_rate := by
  rw [update_eq_stages]
  unfold tickIntersectFlip tickRadiusDelta tickZeroBounce
  cases hd : r.direction <;>
    by_cases h : ∃ o ∈ rings, r.is_intersecting o <;>
      simp [h, hd, RingDirection.flip] <;> split <;> simp

theorem update_no_intersect_growing (r : Ring) (rings : List Ring)
    (h : ¬ ∃ o ∈ rings, r.is_intersecting o) (hd : r.direction = RingDirection.Growing) :
    r.update rings = { r with radius := r.radius + r.growth_rate } := by
  rw [update_eq_stages]
  unfold tickIntersectFlip tickRadiusDelta tickZeroBounce
  rw [if_neg h]
  cases hr : r.direction with
  | Growing => simp [hr]
  | Shrinking => exact absurd hr (by rw [hd]; intro hc; cases hc)

theorem update_no_intersect_shrinking (r : Ring) (rings : List Ring)
    (h : ¬ ∃ o ∈ rings, r.is_intersecting o) (hd : r.direction = RingDirection.Shrinking) :
    (r.update rings).radius = r.radius - r.growth_rate ∧
    (r.update rings).direction =
      (if r.radius - r.growth_rate < 0 then RingDirection.Growing
        else RingDirection.Shrinking) := by
  rw [update_eq_stages]
  unfold tickIntersectFlip tickRadiusDelta tickZeroBounce
  rw [if_neg h]
  cases hr : r.direction with
  | Growing => exact absurd hr (by rw [hd]; intro hc; cases hc)
  | Shrinking =>
    by_cases hneg : r.radius - r.growth_rate < 0 <;> simp [hr, hneg]

/-- C1: for non-equal rings that are not both Shrinking, the intersection
predicate holds iff the origin distance lies strictly inside the external
band `(r1+r2-g, r1+r2+g)` or the internal band `(|r1-r2|-g, |r1-r2|+g)`,
where `g` is the first ring's growth rate. -/
theorem intersects_iff_distance_in_band (R O : Ring)
    (hne : ¬ R.ringEq O)
    (hdir : ¬ (R.direction = RingDirection.Shrinking ∧
      O.direction = RingDirection.Shrinking)) :
    R.is_intersectingR O ↔
      (R.origin.distance_to O.origin ∈
        Set.Ioo ((R.radius : ℝ) + (O.radius : ℝ) - (R.growth_rate : ℝ))
          ((R.radius : ℝ) + (O.radius : ℝ) + (R.growth_rate : ℝ)) ∨
      R.origin.distance_to O.origin ∈
        Set.Ioo (|(R.radius : ℝ) - (O.radius : ℝ)| - (R.growth_rate : ℝ))
          (|(R.radius : ℝ) - (O.radius : ℝ)| + (R.growth_rate : ℝ))) := by
  unfold Ring.is_intersectingR
  rw [if_neg hne, if_neg hdir]
  simp only [Set.mem_Ioo, gt_iff_lt]

/-- Witness for C1 at two concrete rings with distinct origins, both Growing. -/
theorem intersects_iff_distance_in_band_witness :
    ¬ ringA.ringEq ringB ∧
    ¬ (ringA.direction = RingDirection.Shrinking ∧
      ringB.direction = RingDirection.Shrinking) ∧
    (ringA.is_intersectingR ringB ↔
      (ringA.origin.distance_to ringB.origin ∈
        Set.Ioo ((ringA.radius : ℝ) + (ringB.radius : ℝ) - (ringA.growth_rate : ℝ))
          ((ringA.radius : ℝ) + (ringB.radius : ℝ) + (ringA.growth_rate : ℝ)) ∨
      ringA.origin.distance_to ringB.origin ∈
        Set.Ioo (|(ringA.radius : ℝ) - (ringB.radius : ℝ)| - (ringA.growth_rate : ℝ))
          (|(ringA.radius : ℝ) - (ringB.radius : ℝ)| + (ringA.growth_rate : ℝ)))) := by
  have hne : ¬ ringA.ringEq ringB := by
    intro h
    have := h.1
    simp [ringA, ringB, Ring.new, Ring.set_origin, Point.new, Point.mk.injEq] at this
  have hdir : ¬ (ringA.direction = RingDirection.Shrinking ∧
      ringB.direction = RingDirection.Shrinking) := by
    rintro ⟨h, -⟩
    exact absurd h (by simp [ringA, Ring.new, Ring.set_origin])
  exact ⟨hne, hdir, intersects_iff_distance_in_band ringA ringB hne hdir⟩

/-- C4: a lone ring whose radius goes negative on a tick keeps the exact
(unclamped) negative radius for that tick, flips to Growing within the same
tick, and is back to its pre-dip nonnegative radius on the next tick, so the
radius is negative for at most one consecutive tick. -/
theorem zero_bounce_lone_ring (r : Ring) (hg : 0 < r.growth_rate) (hr : 0 ≤ r.radius)
    (hneg : (r.update [r]).radius < 0) :
    (r.update [r]).radius = r.radius - r.growth_rate ∧
    (r.update [r]).direction = RingDirection.Growing ∧
    ((r.update [r]).update [r.update [r]]).radius = r.radius ∧
    0 ≤ ((r.update [r]).update [r.update [r]]).radius := by
  have hnone : ¬ ∃ o ∈ [r], r.is_intersecting o := by
    simp [Ring.not_is_intersecting_self r]
  cases hd : r.direction with
  | Growing =>
    rw [update_no_intersect_growing r [r] hnone hd] at hneg
    exact absurd hneg (by simp; linarith)
  | Shrinking =>
    obtain ⟨hrad, hdir⟩ := update_no_intersect_shrinking r [r] hnone hd
    have hneg' : r.radius - r.growth_rate < 0 := by rw [hrad] at hneg; exact hneg
    have hdir' : (r.update [r]).direction = RingDirection.Growing := by
      rw [hdir, if_pos hneg']
    have hnone2 : ¬ ∃ o ∈ [r.update [r]], (r.update [r]).is_intersecting o := by
      simp [Ring.not_is_intersecting_self]
    have hstep2 := update_no_intersect_growing (r.update [r]) [r.update [r]] hnone2 hdir'
    have hgr : (r.update [r]).growth_rate = r.growth_rate :=
      (update_preserves_static r [r]).2.2.2
    have hrad2 : ((r.update [r]).update [r.update [r]]).radius = r.radius := by
      rw [hstep2]
      show (r.update [r]).radius + (r.update [r]).growth_rate = r.radius
      rw [hrad, hgr]
      ring
    exact ⟨hrad, hdir', hrad2, by rw [hrad2]; exact hr⟩

/-- Witness for C4 at a concrete shrinking ring with radius 1/4 and growth
rate 1/2. -/
theorem zero_bounce_lone_ring_witness :
    (0 : ℚ) < ({ Ring.new (0, 0, 200) with
      radius := 1 / 4
      direction := RingDirection.Shrinking } : Ring).growth_rate ∧
    (0 : ℚ) ≤ ({ Ring.new (0, 0, 200) with
      radius := 1 / 4
      direction := RingDirection.Shrinking } : Ring).radius ∧
    (({ Ring.new (0, 0, 200) with
      radius := 1 / 4
      direction := RingDirection.Shrinking } : Ring).update
      [{ Ring.new (0, 0, 200) with
        radius := 1 / 4
        direction := RingDirection.Shrinking }]).radius < 0 ∧
    (({ Ring.new (0, 0, 200) with
      radius := 1 / 4
      direction := RingDirection.Shrinking } : Ring).update
      [{ Ring.new (0, 0, 200) with
        radius := 1 / 4
        direction := RingDirection.Shrinking }]).direction = RingDirection.Growing := by
  have hg : (0 : ℚ) < ({ Ring.new (0, 0, 200) with
      radius := 1 / 4
      direction := RingDirection.Shrinking } : Ring).growth_rate := by
    norm_num [Ring.new]
  have hr : (0 : ℚ) ≤ ({ Ring.new (0, 0, 200) with
      radius := 1 / 4
      direction := RingDirection.Shrinking } : Ring).radius := by
    norm_num
  have hneg : (({ Ring.new (0, 0, 200) with
      radius := 1 / 4
      direction := RingDirection.Shrinking } : Ring).update
      [{ Ring.new (0, 0, 200) with
        radius := 1 / 4
        direction := RingDirection.Shrinking }]).radius < 0 := by
    rw [(update_no_intersect_shrinking _ _
      (by simp [Ring.not_is_intersecting_self]) rfl).1]
    norm_num [Ring.new]
  exact ⟨hg, hr, hneg, (zero_bounce_lone_ring _ hg hr hneg).2.1⟩

theorem trajOn_growth_rate (S : ℕ → List Ring) (r : Ring) (k : ℕ) :
    (trajOn S r k).growth_rate = r.growth_rate := by
  induction k with
  | zero => rfl
  | succ m ih => rw [trajOn, (update_preserves_static _ _).2.2.2, ih]

/-- C7: absent intersection, one tick changes the radius by exactly
`+growth_rate` when Growing (direction unchanged) and `-growth_rate` when
Shrinking; over `N` intersection-free ticks while Growing the radius ends at
`initial + N * growth_rate`; a freshly spawned lone ring with growth rate 1/2
has radius exactly 1/2 and direction Growing after one tick. -/
theorem growth_without_intersection (r : Ring) (S : ℕ → List Ring) (N : ℕ)
    (c : ℕ × ℕ × ℕ) :
    (¬ (∃ o ∈ S 0, r.is_intersecting o) → r.direction = RingDirection.Growing →
      (r.update (S 0)).radius = r.radius + r.growth_rate ∧
      (r.update (S 0)).direction = RingDirection.Growing) ∧
    (¬ (∃ o ∈ S 0, r.is_intersecting o) → r.direction = RingDirection.Shrinking →
      (r.update (S 0)).radius = r.radius - r.growth_rate) ∧
    (r.direction = RingDirection.Growing →
      (∀ k, k < N → ¬ ∃ o ∈ S k, (trajOn S r k).is_intersecting o) →
      (trajOn S r N).radius = r.radius + N * r.growth_rate ∧
      (trajOn S r N).direction = RingDirection.Growing) ∧
    ((Ring.new c).update [Ring.new c]).radius = 1 / 2 ∧
    ((Ring.new c).update [Ring.new c]).direction = RingDirection.Growing := by
  have hstatic : ∀ (x : Ring) (L : List Ring), (x.update L).growth_rate = x.growth_rate :=
    fun x L => (update_preserves_static x L).2.2.2
  refine ⟨?_, ?_, ?_, ?_, ?_⟩
  · intro h hd
    rw [update_no_intersect_growing r (S 0) h hd]
    exact ⟨rfl, hd⟩
  · intro h hd
    exact (update_no_intersect_shrinking r (S 0) h hd).1
  · intro hd
    induction N with
    | zero =>
      intro _hfree
      refine ⟨?_, hd⟩
      show r.radius = r.radius + (0 : ℕ) * r.growth_rate
      push_cast
      ring
    | succ m ih =>
      intro hfree
      obtain ⟨ihr, ihd⟩ := ih (fun k hk => hfree k (Nat.lt_succ_of_lt hk))
      have hm := hfree m (Nat.lt_succ_self m)
      have hstep := update_no_intersect_growing (trajOn S r m) (S m) hm ihd
      have htr : trajOn S r (m + 1) = (trajOn S r m).update (S m) := rfl
      constructor
      · rw [htr, hstep]
        show (trajOn S r m).radius + (trajOn S r m).growth_rate =
          r.radius + ((m : ℕ) + 1 : ℕ) * r.growth_rate
        rw [ihr, trajOn_growth_rate S r m]
        push_cast
        ring
      · rw [htr, hstep]
        exact ihd
  · rw [update_no_intersect_growing (Ring.new c) [Ring.new c]
      (by simp [Ring.not_is_intersecting_self]) rfl]
    show (Ring.new c).radius + (Ring.new c).growth_rate = 1 / 2
    norm_num [Ring.new]
  · rw [update_no_intersect_growing (Ring.new c) [Ring.new c]
      (by simp [Ring.not_is_intersecting_self]) rfl]
    rfl

/-- Witness for C7 at a concrete lone ring over empty snapshots, 3 ticks. -/
theorem growth_without_intersection_witness :
    (trajOn (fun _ => []) (Ring.new (7, 7, 7)) 3).radius =
      (Ring.new (7, 7, 7)).radius + 3 * (Ring.new (7, 7, 7)).growth_rate ∧
    (trajOn (fun _ => []) (Ring.new (7, 7, 7)) 3).direction = RingDirection.Growing ∧
    ((Ring.new (7, 7, 7)).update [Ring.new (7, 7, 7)]).radius = 1 / 2 := by
  have h := growth_without_intersection (Ring.new (7, 7, 7)) (fun _ => []) 3 (7, 7, 7)
  obtain ⟨hrad, hdir⟩ := h.2.2.1 rfl (by simp)
  exact ⟨hrad, hdir, h.2.2.2.1⟩

theorem appUpdate_button_state (m : Model) (b : ButtonPosition) (c : ℕ × ℕ × ℕ) :
    (appUpdate m b c).button_state = b := by
  unfold appUpdate
  by_cases h : m.button_state ≠ b
  · cases b <;> simp [h]
  · push_neg at h
    simp [h]

theorem appUpdate_length_same (m : Model) (b : ButtonPosition) (c : ℕ × ℕ × ℕ)
    (h : m.button_state = b) :
    (appUpdate m b c).rings.length = m.rings.length := by
  unfold appUpdate
  simp [h, ringsUpdate_length]

theorem appUpdate_length_up (m : Model) (c : ℕ × ℕ × ℕ) :
    (appUpdate m ButtonPosition.Up c).rings.length = m.rings.length := by
  unfold appUpdate
  by_cases h : m.button_state ≠ ButtonPosition.Up <;> simp [h, ringsUpdate_length]

theorem appUpdate_length_down (m : Model) (p : Point) (c : ℕ × ℕ × ℕ)
    (h : m.button_state ≠ ButtonPosition.Down p) :
    (appUpdate m (ButtonPosition.Down p) c).rings.length = m.rings.length + 1 := by
  unfold appUpdate
  simp [h, ringsUpdate_length]

/-- C9: a ring is appended exactly on a press edge — when the stored button
state differs from the current state and the current state is Down; holding
the button (state unchanged) or releases never append, and three consecutive
ticks with the button held Down at the same point starting from Up spawn
exactly one ring. -/
theorem spawn_only_on_press_edge (m : Model) (b : ButtonPosition) (c : ℕ × ℕ × ℕ)
    (p : Point) :
    (m.button_state = b → (appUpdate m b c).rings.length = m.rings.length) ∧
    ((appUpdate m ButtonPosition.Up c).rings.length = m.rings.length) ∧
    (m.button_state ≠ ButtonPosition.Down p →
      (appUpdate m (ButtonPosition.Down p) c).rings.length = m.rings.length + 1) ∧
    (m.button_state = ButtonPosition.Up →
      (appUpdate (appUpdate (appUpdate m (ButtonPosition.Down p) c)
          (ButtonPosition.Down p) c) (ButtonPosition.Down p) c).rings.length =
        m.rings.length + 1) := by
  refine ⟨fun h => appUpdate_length_same m b c h, appUpdate_length_up m c,
    fun h => appUpdate_length_down m p c h, fun hUp => ?_⟩
  have hne : m.button_state ≠ ButtonPosition.Down p := by
    rw [hUp]
    intro hc
    cases hc
  have l1 := appUpdate_length_down m p c hne
  have s1 := appUpdate_button_state m (ButtonPosition.Down p) c
  have l2 := appUpdate_length_same (appUpdate m (ButtonPosition.Down p) c)
    (ButtonPosition.Down p) c s1
  have s2 := appUpdate_button_state (appUpdate m (ButtonPosition.Down p) c)
    (ButtonPosition.Down p) c
  have l3 := appUpdate_length_same
    (appUpdate (appUpdate m (ButtonPosition.Down p) c) (ButtonPosition.Down p) c)
    (ButtonPosition.Down p) c s2
  rw [l3, l2, l1]

/-- Witness for C9 at a concrete model with one press from the Up state. -/
theorem spawn_only_on_press_edge_witness :
    (({ rings := [], button_state := ButtonPosition.Up } : Model).button_state =
      ButtonPosition.Up →
      (appUpdate { rings := [], button_state := ButtonPosition.Up }
        ButtonPosition.Up (1, 2, 3)).rings.length = 0) ∧
    (({ rings := [], button_state := ButtonPosition.Up } : Model).button_state =
      ButtonPosition.Up →
      (appUpdate (appUpdate (appUpdate
          { rings := [], button_state := ButtonPosition.Up }
          (ButtonPosition.Down (Point.new 3 4)) (1, 2, 3))
          (ButtonPosition.Down (Point.new 3 4)) (1, 2, 3))
          (ButtonPosition.Down (Point.new 3 4)) (1, 2, 3)).rings.length = 1) :=
  ⟨fun h => (spawn_only_on_press_edge { rings := [], button_state := ButtonPosition.Up }
      ButtonPosition.Up (1, 2, 3) (Point.new 3 4)).1 h,
    fun h => (spawn_only_on_press_edge { rings := [], button_state := ButtonPosition.Up }
      ButtonPosition.Up (1, 2, 3) (Point.new 3 4)).2.2.2 h⟩

theorem is_intersecting_congr_left {a b : Ring} (h : a.ringEq b) (x : Ring) :
    a.is_intersecting x ↔ b.is_intersecting x := by
  obtain ⟨h1, h2, h3, h4, h5⟩ := h
  unfold Ring.is_intersecting Ring.ringEq
  simp only [h1, h2, h3, h4, h5]

theorem tickIntersectFlip_congr {a b : Ring} (L : List Ring) (h : a.ringEq b) :
    (tickIntersectFlip a L).ringEq (tickIntersectFlip b L) := by
  have hint : (∃ o ∈ L, a.is_intersecting o) ↔ ∃ o ∈ L, b.is_intersecting o :=
    exists_congr fun o => and_congr_right fun _ => is_intersecting_congr_left h o
  obtain ⟨h1, h2, h3, h4, h5⟩ := h
  unfold tickIntersectFlip
  by_cases hI : ∃ o ∈ L, a.is_intersecting o
  · rw [if_pos hI, if_pos (hint.mp hI)]
    exact ⟨h1, h2, h3, h4, by rw [h5]⟩
  · rw [if_neg hI, if_neg (fun hc => hI (hint.mpr hc))]
    exact ⟨h1, h2, h3, h4, h5⟩

theorem tickRadiusDelta_congr {a b : Ring} (h : a.ringEq b) :
    (tickRadiusDelta a).ringEq (tickRadiusDelta b) := by
  obtain ⟨h1, h2, h3, h4, h5⟩ := h
  unfold tickRadiusDelta
  cases hd : a.direction with
  | Growing =>
    have hd2 : b.direction = RingDirection.Growing := h5.symm.trans hd
    simp only [hd, hd2]
    refine ⟨h1, ?_, h3, h4, ?_⟩ <;> simp [h2, h4, h5]
  | Shrinking =>
    have hd2 : b.direction = RingDirection.Shrinking := h5.symm.trans hd
    simp only [hd, hd2]
    refine ⟨h1, ?_, h3, h4, ?_⟩ <;> simp [h2, h4, h5]

theorem tickZeroBounce_congr {a b : Ring} (h : a.ringEq b) :
    (tickZeroBounce a).ringEq (tickZeroBounce b) := by
  obtain ⟨h1, h2, h3, h4, h5⟩ := h
  unfold tickZeroBounce
  rw [h2, h5]
  by_cases hc : b.radius < 0 ∧ b.direction = RingDirection.Shrinking
  · rw [if_pos hc, if_pos hc]
    refine ⟨h1, ?_, h3, h4, ?_⟩ <;> simp [h2, h4, h5]
  · rw [if_neg hc, if_neg hc]
    refine ⟨h1, ?_, h3, h4, ?_⟩ <;> simp [h2, h4, h5]

theorem Ring.update_congr {a b : Ring} (L : List Ring) (h : a.ringEq b) :
    (a.update L).ringEq (b.update L) := by
  rw [update_eq_stages, update_eq_stages]
  exact tickZeroBounce_congr (tickRadiusDelta_congr (tickIntersectFlip_congr L h))

theorem ringsUpdate_get (L : List Ring) (i : ℕ) (hi : i < L.length)
    (hi2 : i < (ringsUpdate L).length) :
    (ringsUpdate L).get ⟨i, hi2⟩ = (L.get ⟨i, hi⟩).update L := by
  simp [ringsUpdate_eq_map, List.get_eq_getElem, List.getElem_map]

theorem stepN_get_ringEq (n : ℕ) :
    ∀ (L : List Ring) (i j : ℕ) (hi : i < L.length) (hj : j < L.length),
      (L.get ⟨i, hi⟩).ringEq (L.get ⟨j, hj⟩) →
      ∀ (hi2 : i < (stepN n L).length) (hj2 : j < (stepN n L).length),
        ((stepN n L).get ⟨i, hi2⟩).ringEq ((stepN n L).get ⟨j, hj2⟩) := by
  induction n with
  | zero =>
    intro L i j hi hj h hi2 hj2
    exact h
  | succ m ih =>
    intro L i j hi hj h hi2 hj2
    have hi3 : i < (ringsUpdate L).length := by rw [ringsUpdate_length]; exact hi
    have hj3 : j < (ringsUpdate L).length := by rw [ringsUpdate_length]; exact hj
    have hstep : ((ringsUpdate L).get ⟨i, hi3⟩).ringEq ((ringsUpdate L).get ⟨j, hj3⟩) := by
      rw [ringsUpdate_get L i hi hi3, ringsUpdate_get L j hj hj3]
      exact Ring.update_congr L h
    exact ih (ringsUpdate L) i j hi3 hj3 hstep hi2 hj2

/-- C10: two rings of the set that agree on all equality-relevant fields
skip each other in intersection tests and remain field-equal after every
number of steps, evolving in lockstep. -/
theorem coincident_rings_lockstep (L : List Ring) (i j : ℕ) (n : ℕ)
    (hi : i < L.length) (hj : j < L.length)
    (h : (L.get ⟨i, hi⟩).ringEq (L.get ⟨j, hj⟩)) :
    ¬ (L.get ⟨i, hi⟩).is_intersecting (L.get ⟨j, hj⟩) ∧
    ∀ (hi2 : i < (stepN n L).length) (hj2 : j < (stepN n L).length),
      ((stepN n L).get ⟨i, hi2⟩).ringEq ((stepN n L).get ⟨j, hj2⟩) :=
  ⟨not_is_intersecting_of_ringEq h, stepN_get_ringEq n L i j hi hj h⟩

/-- Witness for C10 at two rings that differ only in color, over two steps. -/
theorem coincident_rings_lockstep_witness :
    (([Ring.new (1, 1, 1), Ring.new (2, 2, 2)] : List Ring).get
        ⟨0, by decide⟩).ringEq
      (([Ring.new (1, 1, 1), Ring.new (2, 2, 2)] : List Ring).get ⟨1, by decide⟩) ∧
    ¬ (([Ring.new (1, 1, 1), Ring.new (2, 2, 2)] : List Ring).get
        ⟨0, by decide⟩).is_intersecting
      (([Ring.new (1, 1, 1), Ring.new (2, 2, 2)] : List Ring).get ⟨1, by decide⟩) ∧
    ∀ (hi2 : 0 < (stepN 2 [Ring.new (1, 1, 1), Ring.new (2, 2, 2)]).length)
      (hj2 : 1 < (stepN 2 [Ring.new (1, 1, 1), Ring.new (2, 2, 2)]).length),
      ((stepN 2 [Ring.new (1, 1, 1), Ring.new (2, 2, 2)]).get ⟨0, hi2⟩).ringEq
        ((stepN 2 [Ring.new (1, 1, 1), Ring.new (2, 2, 2)]).get ⟨1, hj2⟩) := by
  have h : (([Ring.new (1, 1, 1), Ring.new (2, 2, 2)] : List Ring).get
      ⟨0, by decide⟩).ringEq
      (([Ring.new (1, 1, 1), Ring.new (2, 2, 2)] : List Ring).get ⟨1, by decide⟩) :=
    ⟨rfl, rfl, rfl, rfl, rfl⟩
  obtain ⟨ha, hb⟩ := coincident_rings_lockstep
    [Ring.new (1, 1, 1), Ring.new (2, 2, 2)] 0 1 2 (by decide) (by decide) h
  exact ⟨h, ha, hb⟩

theorem twoRing_not_intersecting_AB (r : ℚ) (h0 : 0 ≤ r) (h : 2 * r + 1 / 2 ≤ 10) :
    ¬ ({ ringA with radius := r } : Ring).is_intersecting { ringB with radius := r } := by
  intro hI
  simp [Ring.is_intersecting, Ring.ringEq, ringA, ringB, Ring.new, Ring.set_origin,
    Point.new, Point.distSq, sqrtGt, sqrtLt] at hI
  rcases hI with ⟨-, -, hlt⟩ | hlt
  · nlinarith
  · norm_num at hlt

theorem twoRing_not_intersecting_BA (r : ℚ) (h0 : 0 ≤ r) (h : 2 * r + 1 / 2 ≤ 10) :
    ¬ ({ ringB with radius := r } : Ring).is_intersecting { ringA with radius := r } := by
  intro hI
  simp [Ring.is_intersecting, Ring.ringEq, ringA, ringB, Ring.new, Ring.set_origin,
    Point.new, Point.distSq, sqrtGt, sqrtLt] at hI
  rcases hI with ⟨-, -, hlt⟩ | hlt
  · nlinarith
  · norm_num at hlt

theorem twoRing_tick (r : ℚ) (h0 : 0 ≤ r) (h : 2 * r + 1 / 2 ≤ 10) :
    ringsUpdate [{ ringA with radius := r }, { ringB with radius := r }] =
      [{ ringA with radius := r + 1 / 2 }, { ringB with radius := r + 1 / 2 }] := by
  have hA : ¬ ∃ o ∈ [({ ringA with radius := r } : Ring), { ringB with radius := r }],
      ({ ringA with radius := r } : Ring).is_intersecting o := by
    simp only [List.mem_cons, List.not_mem_nil, or_false, exists_eq_or_imp, exists_eq_left]
    push_neg
    exact ⟨Ring.not_is_intersecting_self _, twoRing_not_intersecting_AB r h0 h⟩
  have hB : ¬ ∃ o ∈ [({ ringA with radius := r } : Ring), { ringB with radius := r }],
      ({ ringB with radius := r } : Ring).is_intersecting o := by
    simp only [List.mem_cons, List.not_mem_nil, or_false, exists_eq_or_imp, exists_eq_left]
    push_neg
    exact ⟨twoRing_not_intersecting_BA r h0 h, Ring.not_is_intersecting_self _⟩
  rw [ringsUpdate_eq_map]
  simp only [List.map_cons, List.map_nil]
  rw [update_no_intersect_growing _ _ hA rfl, update_no_intersect_growing _ _ hB rfl]
  rfl

theorem twoRing_state (k : ℕ) (hk : k ≤ 10) :
    stepN k [ringA, ringB] =
      [{ ringA with radius := (k : ℚ) / 2 }, { ringB with radius := (k : ℚ) / 2 }] := by
  induction k with
  | zero =>
    rw [show ((0 : ℕ) : ℚ) / 2 = 0 by norm_num]
    rfl
  | succ m ih =>
    have hm : m ≤ 10 := Nat.le_of_succ_le hk
    have hm9 : (m : ℚ) ≤ 9 := by
      have : m ≤ 9 := Nat.lt_succ_iff.mp hk
      exact_mod_cast this
    rw [stepN_succ, ih hm,
      twoRing_tick ((m : ℚ) / 2) (by positivity) (by linarith),
      show (m : ℚ) / 2 + 1 / 2 = ((m + 1 : ℕ) : ℚ) / 2 by push_cast; ring]

theorem twoRing_intersecting_at_five :
    ({ ringA with radius := (5 : ℚ) } : Ring).is_intersecting { ringB with radius := (5 : ℚ) } ∧
    ({ ringB with radius := (5 : ℚ) } : Ring).is_intersecting { ringA with radius := (5 : ℚ) } := by
  constructor <;>
  · simp only [Ring.is_intersecting, Ring.ringEq, ringA, ringB, Ring.new, Ring.set_origin,
      Point.new, Point.distSq, sqrtGt, sqrtLt]
    norm_num
    rintro ⟨⟩

theorem twoRing_tick_eleven :
    ringsUpdate [{ ringA with radius := (5 : ℚ) }, { ringB with radius := (5 : ℚ) }] =
      [{ ringA with radius := 9 / 2, direction := RingDirection.Shrinking },
        { ringB with radius := 9 / 2, direction := RingDirection.Shrinking }] := by
  obtain ⟨hAB, hBA⟩ := twoRing_intersecting_at_five
  have hA : ∃ o ∈ [({ ringA with radius := (5 : ℚ) } : Ring), { ringB with radius := (5 : ℚ) }],
      ({ ringA with radius := (5 : ℚ) } : Ring).is_intersecting o :=
    ⟨{ ringB with radius := (5 : ℚ) }, by simp, hAB⟩
  have hB : ∃ o ∈ [({ ringA with radius := (5 : ℚ) } : Ring), { ringB with radius := (5 : ℚ) }],
      ({ ringB with radius := (5 : ℚ) } : Ring).is_intersecting o :=
    ⟨{ ringA with radius := (5 : ℚ) }, by simp, hBA⟩
  rw [ringsUpdate_eq_map]
  simp only [List.map_cons, List.map_nil]
  rw [update_eq_stages, update_eq_stages]
  unfold tickIntersectFlip tickRadiusDelta tickZeroBounce
  rw [if_pos hA, if_pos hB]
  norm_num [ringA, ringB, Ring.new, Ring.set_origin, Point.new, RingDirection.flip]

/-- C8: for the two default rings spawned at `(0,0)` and `(10,0)`, the
pre-tick radii are `k/2` after `k` ticks for `k ≤ 10`; the origin distance 10
misses the external band for the first ten ticks and lies strictly inside it
over the pre-tick radii of tick 11 (`r1 = r2 = 5`), where the pair
intersects in both orders and both rings flip to Shrinking during that
tick. -/
theorem two_ring_first_band_hit :
    (∀ k : ℕ, k ≤ 10 → stepN k [ringA, ringB] =
      [{ ringA with radius := (k : ℚ) / 2 }, { ringB with radius := (k : ℚ) / 2 }]) ∧
    (∀ k : ℕ, k ≤ 9 →
      ¬ ((k : ℚ) / 2 + (k : ℚ) / 2 - 1 / 2 < 10 ∧
        (10 : ℚ) < (k : ℚ) / 2 + (k : ℚ) / 2 + 1 / 2)) ∧
    ((10 : ℚ) / 2 + (10 : ℚ) / 2 - 1 / 2 < 10 ∧
      (10 : ℚ) < (10 : ℚ) / 2 + (10 : ℚ) / 2 + 1 / 2) ∧
    ({ ringA with radius := (5 : ℚ) } : Ring).is_intersecting
      { ringB with radius := (5 : ℚ) } ∧
    ({ ringB with radius := (5 : ℚ) } : Ring).is_intersecting
      { ringA with radius := (5 : ℚ) } ∧
    stepN 11 [ringA, ringB] =
      [{ ringA with radius := 9 / 2, direction := RingDirection.Shrinking },
        { ringB with radius := 9 / 2, direction := RingDirection.Shrinking }] := by
  refine ⟨twoRing_state, ?_, by norm_num, twoRing_intersecting_at_five.1,
    twoRing_intersecting_at_five.2, ?_⟩
  · intro k hk
    rintro ⟨-, h2⟩
    have hk9 : (k : ℚ) ≤ 9 := by exact_mod_cast hk
    linarith
  · rw [show (11 : ℕ) = 10 + 1 from rfl, stepN_succ, twoRing_state 10 (by norm_num),
      show ((10 : ℕ) : ℚ) / 2 = 5 by norm_num]
    exact twoRing_tick_eleven

/-- Witness for C8: the trajectory conjunct at tick 10 and the band-miss
conjunct at tick 3. -/
theorem two_ring_first_band_hit_witness :
    stepN 10 [ringA, ringB] =
      [{ ringA with radius := ((10 : ℕ) : ℚ) / 2 },
        { ringB with radius := ((10 : ℕ) : ℚ) / 2 }] ∧
    ¬ (((3 : ℕ) : ℚ) / 2 + ((3 : ℕ) : ℚ) / 2 - 1 / 2 < 10 ∧
      (10 : ℚ) < ((3 : ℕ) : ℚ) / 2 + ((3 : ℕ) : ℚ) / 2 + 1 / 2) :=
  ⟨two_ring_first_band_hit.1 10 (by norm_num),
    two_ring_first_band_hit.2.1 3 (by norm_num)⟩
